import Mathlib

/-
Shallow embedding of the `runtime` repository's `dev` process multiplexer
(src/cmd/dev/runDev.go and src/cmd/dev/runTUI.go): the per-service log relay
with its bounded channel, the bubbletea model and its `Update` function, the
keyboard-to-byte translation, and the command tokenization used to spawn
services.  Machine integers of the Go source are modelled as `Int`
(Go `int` arithmetic never overflows in the ranges exercised here), strings as
Lean `String`, and Go maps as functions to `Option`.
-/

namespace Runtime

/-- Go helper `min` from src/cmd/dev/runDev.go (`func min(a, b int) int`). -/
def goMin (a b : Int) : Int := if a < b then a else b

/-- Go helper `max` from src/cmd/dev/runDev.go (`func max(a, b int) int`). -/
def goMax (a b : Int) : Int := if a > b then a else b

/-- Integer clamp used by the bubbles viewport: `min(max(v, low), high)`. -/
def clamp (v lo hi : Int) : Int := goMin (goMax v lo) hi

/-- Splitting a character list at every newline character, mirroring Go
`strings.Split(s, "\n")`: the result has one group per newline plus one, and
`splitNl [] = [[]]` just as `strings.Split("", "\n") = [""]`. -/
def splitNl : List Char → List (List Char)
  | [] => [[]]
  | c :: rest =>
    if c = '\n' then [] :: splitNl rest
    else
      match splitNl rest with
      | [] => [[c]]
      | g :: gs => (c :: g) :: gs

/-- Builds a `String` back from a character list. -/
def chStr (cs : List Char) : String := String.mk cs

/-- Go `strings.ReplaceAll(s, "\r\n", "\n")` (left-to-right, non-overlapping),
as performed by the bubbles viewport `SetContent`. -/
def replCRLF : List Char → List Char
  | '\r' :: '\n' :: rest => '\n' :: replCRLF rest
  | c :: rest => c :: replCRLF rest
  | [] => []

/-- Go `strings.Join(lines, "\n")`. -/
def joinNl : List String → String
  | [] => ""
  | [l] => l
  | l :: rest => l ++ "\n" ++ joinNl rest

/-- Embedding of `viewport.Model` from github.com/charmbracelet/bubbles, the
scroll-buffer component the source stores per service: a window of `height`
lines starting at `yOffset` over the stored `lines`. -/
structure Viewport where
  width : Int
  height : Int
  yOffset : Int
  lines : List String
deriving Repr, DecidableEq

/-- Bubbles `viewport.New(width, height)`: zero value with the two dimensions
set (`lines` is nil, `YOffset` 0). -/
def Viewport.new (w h : Int) : Viewport :=
  { width := w, height := h, yOffset := 0, lines := [] }

/-- Bubbles `maxYOffset`: `max(0, len(m.lines)-m.Height)`. -/
def Viewport.maxYOffset (vp : Viewport) : Int :=
  goMax 0 ((vp.lines.length : Int) - vp.height)

/-- Bubbles `SetYOffset`: clamp the offset into `[0, maxYOffset]`. -/
def Viewport.setYOffset (vp : Viewport) (n : Int) : Viewport :=
  { vp with yOffset := clamp n 0 vp.maxYOffset }

/-- Bubbles `GotoBottom`: scroll so the last lines are visible. -/
def Viewport.gotoBottom (vp : Viewport) : Viewport :=
  vp.setYOffset vp.maxYOffset

/-- Bubbles `SetContent`: normalize line endings, split into lines, and keep
the offset in range (`if m.YOffset > len(m.lines)-1 { m.GotoBottom() }`). -/
def Viewport.setContent (vp : Viewport) (s : String) : Viewport :=
  let ls := (splitNl (replCRLF s.data)).map chStr
  let vp' : Viewport := { vp with lines := ls }
  if vp'.yOffset > (ls.length : Int) - 1 then vp'.gotoBottom else vp'

/-- Bubbles `visibleLines`: the slice `m.lines[top:bottom]` with
`top = max(0, YOffset)` and `bottom = clamp(YOffset+Height, top, len(lines))`. -/
def Viewport.visibleLines (vp : Viewport) : List String :=
  if 0 < vp.lines.length then
    let top := goMax 0 vp.yOffset
    let bottom := clamp (vp.yOffset + vp.height) top (vp.lines.length : Int)
    (vp.lines.drop top.toNat).take (bottom - top).toNat
  else []

/-- Bubbles `View` (with the empty `Style` the source installs): the visible
lines joined with newlines, padded with trailing newlines up to `Height` when
there are fewer visible lines than the height. -/
def Viewport.view (vp : Viewport) : String :=
  let ls := vp.visibleLines
  joinNl ls ++
    (if (ls.length : Int) < vp.height then
      chStr (List.replicate (goMax 0 (vp.height - (ls.length : Int))).toNat '\n')
    else "")

/-- Keyboard keys as distinguished by the source: exactly the `tea.KeyType`
cases enumerated in the `keyMsgToBytes` switch (src/cmd/dev/runDev.go), the
three modifier combinations the `Update` switch names, and plain rune input. -/
inductive Key
  | enter | backspace | delete | tab | esc
  | up | down | right | left | home | kEnd | pgup | pgdown
  | ctrlA | ctrlB | ctrlC | ctrlD | ctrlE | ctrlF | ctrlG | ctrlH
  | ctrlK | ctrlL | ctrlN | ctrlO | ctrlP | ctrlR | ctrlS | ctrlT
  | ctrlU | ctrlV | ctrlW | ctrlX | ctrlY | ctrlZ
  | shiftRight | shiftLeft
  | runes (s : String)
deriving Repr, DecidableEq

/-- Bubbletea `KeyMsg.String()`: the canonical name the `Update` switch and
the viewport key map match against. -/
def keyString : Key → String
  | .enter => "enter" | .backspace => "backspace" | .delete => "delete"
  | .tab => "tab" | .esc => "esc"
  | .up => "up" | .down => "down" | .right => "right" | .left => "left"
  | .home => "home" | .kEnd => "end" | .pgup => "pgup" | .pgdown => "pgdown"
  | .ctrlA => "ctrl+a" | .ctrlB => "ctrl+b" | .ctrlC => "ctrl+c"
  | .ctrlD => "ctrl+d" | .ctrlE => "ctrl+e" | .ctrlF => "ctrl+f"
  | .ctrlG => "ctrl+g" | .ctrlH => "ctrl+h" | .ctrlK => "ctrl+k"
  | .ctrlL => "ctrl+l" | .ctrlN => "ctrl+n" | .ctrlO => "ctrl+o"
  | .ctrlP => "ctrl+p" | .ctrlR => "ctrl+r" | .ctrlS => "ctrl+s"
  | .ctrlT => "ctrl+t" | .ctrlU => "ctrl+u" | .ctrlV => "ctrl+v"
  | .ctrlW => "ctrl+w" | .ctrlX => "ctrl+x" | .ctrlY => "ctrl+y"
  | .ctrlZ => "ctrl+z"
  | .shiftRight => "shift+right" | .shiftLeft => "shift+left"
  | .runes s => s

/-- Function `keyMsgToBytes` (src/cmd/dev/runDev.go lines 189-268): the byte
sequence written to the focused pseudo-terminal for a key, or `none` when the
Go function returns nil.  A Go `[]byte` is represented by the `String` whose
UTF-8 encoding it is (`[]byte(msg.String())` for the rune case).  The
`shiftRight`/`shiftLeft`/`ctrlC` keys reach the default branch, where their
multi-byte names fail the `len(msg.String()) == 1` test, hence `none`. -/
def keyMsgToBytes : Key → Option String
  | .enter => some "\r"
  | .backspace => some "\x08"
  | .delete => some "\x7f"
  | .tab => some "\t"
  | .esc => some "\x1b"
  | .up => some "\x1b[A"
  | .down => some "\x1b[B"
  | .right => some "\x1b[C"
  | .left => some "\x1b[D"
  | .home => some "\x1b[H"
  | .kEnd => some "\x1b[F"
  | .pgup => some "\x1b[5~"
  | .pgdown => some "\x1b[6~"
  | .ctrlA => some "\x01" | .ctrlB => some "\x02" | .ctrlD => some "\x04"
  | .ctrlE => some "\x05" | .ctrlF => some "\x06" | .ctrlG => some "\x07"
  | .ctrlH => some "\x08" | .ctrlK => some "\x0b" | .ctrlL => some "\x0c"
  | .ctrlN => some "\x0e" | .ctrlO => some "\x0f" | .ctrlP => some "\x10"
  | .ctrlR => some "\x12" | .ctrlS => some "\x13" | .ctrlT => some "\x14"
  | .ctrlU => some "\x15" | .ctrlV => some "\x16" | .ctrlW => some "\x17"
  | .ctrlX => some "\x18" | .ctrlY => some "\x19" | .ctrlZ => some "\x1a"
  | .runes s => some s
  | .ctrlC => none
  | .shiftRight => none
  | .shiftLeft => none

/-- Messages consumed by `model.Update` (src/cmd/dev/runTUI.go): keyboard
events, terminal resizes, per-service log events (`logMsg` with its
`serviceName`, `line` and `isStderr` fields) and service status events
(`serviceStatusMsg`). -/
inductive Msg
  | key (k : Key)
  | resize (width height : Int)
  | log (serviceName line : String) (isStderr : Bool)
  | status (serviceName statusText : String) (err : Option String)
deriving Repr, DecidableEq

/-- Bubbles `viewport.Model.Update`: scrolls on the default key map
(pgdown/space/f, pgup/b, d/ctrl+d, u/ctrl+u, down/j, up/k) and leaves the
model unchanged for every other message. -/
def Viewport.update (vp : Viewport) (msg : Msg) : Viewport :=
  match msg with
  | .key k =>
    let s := keyString k
    if s = "pgdown" ∨ s = " " ∨ s = "f" then vp.setYOffset (vp.yOffset + vp.height)
    else if s = "pgup" ∨ s = "b" then vp.setYOffset (vp.yOffset - vp.height)
    else if s = "d" ∨ s = "ctrl+d" then vp.setYOffset (vp.yOffset + Int.tdiv vp.height 2)
    else if s = "u" ∨ s = "ctrl+u" then vp.setYOffset (vp.yOffset - Int.tdiv vp.height 2)
    else if s = "down" ∨ s = "j" then vp.setYOffset (vp.yOffset + 1)
    else if s = "up" ∨ s = "k" then vp.setYOffset (vp.yOffset - 1)
    else vp
  | _ => vp

/-- Service descriptor.  The `name`, `path` and `command` fields are parsed
from runtime.toml; the `color` field is the per-service palette color the TUI
formatting reads as `service.Color` (assigned from `getServiceColor`). -/
structure Service where
  name : String
  path : String
  command : String
  color : String
deriving Repr, DecidableEq

/-- The fixed palette of `getServiceColor` (src/cmd/dev/runDev.go). -/
def serviceColors : List String := ["22", "23", "54", "94", "58"]

/-- Function `getServiceColor`: `colors[index%len(colors)]`. -/
def getServiceColor (index : Nat) : String :=
  serviceColors.getD (index % serviceColors.length) ""

/-- The TUI `model` (src/cmd/dev/runTUI.go): the service list, the focused tab
index (a Go `int`), the per-service viewports and the per-service
pseudo-terminal registration (`ptyMasters[name]` holds a non-nil handle).
The `now` field carries the wall-clock string `time.Now().Format("15:04:05")`
read by the `serviceStatusMsg` branch, threaded here as explicit state; the
context/cancel fields are represented by the quit effect of `update`. -/
structure Model where
  services : List Service
  activeTab : Int
  viewports : String → Option Viewport
  ptyMasters : String → Bool
  ready : Bool
  width : Int
  height : Int
  now : String

/-- Go map assignment `m[k] = v` on a string-keyed map. -/
def mapInsert (f : String → Option Viewport) (k : String) (v : Viewport) :
    String → Option Viewport :=
  fun n => if n = k then some v else f n

/-- Go slice indexing `l[i]`, guarded: the source only indexes
`m.services[m.activeTab]` behind `len(m.services) > 0` with the index kept in
range, so the out-of-range panic is modelled as `none`. -/
def goIndex (l : List Service) (i : Int) : Option Service :=
  if h : 0 ≤ i ∧ i.toNat < l.length then some (l.get ⟨i.toNat, h.2⟩) else none

/-- Method `findServiceByName` (src/cmd/dev/runTUI.go): first service with the
given name. -/
def findServiceByName (m : Model) (name : String) : Option Service :=
  m.services.find? (fun svc => svc.name == name)

/-- ANSI rendering of the service-name tag, modelling the lipgloss style built
in the `logMsg` branch (bold, white foreground, the service's palette color as
background, one space of padding each side) for the truecolor profile the
forced environment selects. -/
def renderServiceName (svc : Service) : String :=
  "\x1b[1;38;2;255;255;255;48;5;" ++ svc.color ++ "m " ++ svc.name ++ " \x1b[0m"

/-- ANSI rendering of the stream-indicator glyph `▌`: red (color 196) for the
stderr stream, dark green (color 28) otherwise. -/
def renderStreamBox (isStderr : Bool) : String :=
  (if isStderr then "\x1b[38;5;196m" else "\x1b[38;5;28m") ++ "▌" ++ "\x1b[0m"

/-- The `formattedLine` computed by the `logMsg` branch of `model.Update`:
`fmt.Sprintf("%s%s %s", coloredServiceName, coloredBox, msg.line)` when the
service is found, the plain fallback `fmt.Sprintf("%s %s", ...)` otherwise. -/
def formatLogLine (m : Model) (name line : String) (isStderr : Bool) : String :=
  match findServiceByName m name with
  | some svc => renderServiceName svc ++ renderStreamBox isStderr ++ " " ++ line
  | none => name ++ " " ++ line

/-- A write of a byte sequence to one service's pseudo-terminal master. -/
structure PtyWrite where
  service : String
  bytes : String
deriving Repr, DecidableEq

/-- The side effects one `model.Update` call performs: whether it returned
`tea.Quit` (after `m.cancel()`), and the pseudo-terminal writes it issued. -/
structure Effects where
  quit : Bool
  writes : List PtyWrite
deriving Repr, DecidableEq

/-- The viewport map after the trailing block of `model.Update`
(src/cmd/dev/runTUI.go lines 198-207): the focused service's viewport
sub-component receives the message; when there is no focused service or no
viewport for it, the map is unchanged. -/
def activeViewportsAfter (m : Model) (msg : Msg) : String → Option Viewport :=
  if 0 < m.services.length then
    match goIndex m.services m.activeTab with
    | some svc =>
      match m.viewports svc.name with
      | some vp => mapInsert m.viewports svc.name (vp.update msg)
      | none => m.viewports
    | none => m.viewports
  else m.viewports

/-- The trailing block of `model.Update`: only the viewport map can change. -/
def updateActiveViewport (m : Model) (msg : Msg) : Model :=
  { m with viewports := activeViewportsAfter m msg }

/-- The sentinel line the relay substitutes for a detected clear-screen
sequence. -/
def clearSentinel : String := "___CLEAR_SCREEN___"

/-- Method `model.Update` (src/cmd/dev/runTUI.go lines 67-210), as a pure
function from model and message to the new model plus its effects. -/
def update (m : Model) (msg : Msg) : Model × Effects :=
  match msg with
  | .key k =>
    let s := keyString k
    if s = "ctrl+c" ∨ s = "q" then
      (m, { quit := true, writes := [] })
    else if s = "shift+right" then
      (updateActiveViewport
        { m with activeTab := goMin (m.activeTab + 1) ((m.services.length : Int) - 1) } msg,
       { quit := false, writes := [] })
    else if s = "shift+left" then
      (updateActiveViewport { m with activeTab := goMax (m.activeTab - 1) 0 } msg,
       { quit := false, writes := [] })
    else
      let writes :=
        if 0 < m.services.length then
          match goIndex m.services m.activeTab with
          | some svc =>
            if m.ptyMasters svc.name then
              match keyMsgToBytes k with
              | some bs => [PtyWrite.mk svc.name bs]
              | none => []
            else []
          | none => []
        else []
      (updateActiveViewport m msg, { quit := false, writes := writes })
  | .resize w h =>
    let vh := h - 1
    let vw := w - 4
    let m' : Model :=
      { m with width := w, height := h, ready := true,
               viewports := fun n =>
                 (m.viewports n).map (fun vp => { vp with width := vw, height := vh }) }
    (updateActiveViewport m' msg, { quit := false, writes := [] })
  | .log name line isStderr =>
    if line = clearSentinel then
      match m.viewports name with
      | some vp =>
        ({ m with viewports := mapInsert m.viewports name (vp.setContent "") },
         { quit := false, writes := [] })
      | none => (m, { quit := false, writes := [] })
    else
      match m.viewports name with
      | some vp =>
        let current := vp.view
        let current := if current ≠ "" then current ++ "\n" else current
        let formatted := formatLogLine m name line isStderr
        let vp' := (vp.setContent (current ++ formatted)).gotoBottom
        ({ m with viewports := mapInsert m.viewports name vp' },
         { quit := false, writes := [] })
      | none => (m, { quit := false, writes := [] })
  | .status name statusText err =>
    let m' : Model :=
      match m.viewports name with
      | some vp =>
        let content := vp.view
        let content := if content ≠ "" then content ++ "\n" else content
        let statusLine := "[" ++ m.now ++ "] Service " ++ statusText ++
          (match err with | some e => ": " ++ e | none => "")
        { m with viewports :=
            mapInsert m.viewports name ((vp.setContent (content ++ statusLine)).gotoBottom) }
      | none => m
    (updateActiveViewport m' msg, { quit := false, writes := [] })

/-- Folding a sequence of messages through `update`, keeping the model. -/
def updateSeq (m : Model) (msgs : List Msg) : Model :=
  msgs.foldl (fun m msg => (update m msg).1) m

/-- Containment of a character sequence, the semantics of
`regexp.MatchString` for a regular expression that is an alternation of
literal strings: true iff the pattern occurs as a contiguous substring. -/
def containsSeq (pat : List Char) : List Char → Bool
  | [] => List.isPrefixOf pat []
  | c :: rest => List.isPrefixOf pat (c :: rest) || containsSeq pat rest

/-- The clear-screen detector of `streamPtyToChannel` (src/cmd/dev/runDev.go
line 93): Go `regexp.MustCompile("\x1b\\[2J|\x1b\\[H\x1b\\[2J|\x1b\\[3J")`
applied with `MatchString`, i.e. the line contains one of the three literal
escape sequences. -/
def clearRegexMatches (line : String) : Bool :=
  containsSeq "\x1b[2J".data line.data ||
  containsSeq "\x1b[H\x1b[2J".data line.data ||
  containsSeq "\x1b[3J".data line.data

/-- The event `streamPtyToChannel` offers to the service's channel for one
scanned line: the clear-screen sentinel when the clear regex matches, the
line itself otherwise, in both cases with `isStderr = false`. -/
def relayEvent (serviceName line : String) : Msg :=
  if clearRegexMatches line then Msg.log serviceName clearSentinel false
  else Msg.log serviceName line false

/-- Capacity of each per-service log channel
(`make(chan logMsg, 100)` in `runDev`). -/
def chanCapacity : Nat := 100

/-- The non-blocking send `select { case logChan <- e: default: }` on a
buffered channel, modelled as a bounded queue: the event is appended when
there is room and dropped (queue unchanged) when the queue is full. -/
def trySend (q : List Msg) (e : Msg) : List Msg :=
  if q.length < chanCapacity then q ++ [e] else q

/-- Function `streamPtyToChannel` (src/cmd/dev/runDev.go lines 90-115) run
over a burst of scanned output lines while the consumer drains nothing: each
line is classified by `relayEvent` and offered to the queue with `trySend`. -/
def streamPtyToChannel (serviceName : String) (outputLines : List String)
    (q : List Msg) : List Msg :=
  outputLines.foldl (fun q line => trySend q (relayEvent serviceName line)) q

/-- Outcome of `pty.Start(cmd)` for one service. -/
inductive SpawnResult
  | ok
  | fail (err : String)
deriving Repr, DecidableEq

/-- The observable start of `runServiceWithTUI` (src/cmd/dev/runDev.go lines
51-88): the events it sends on its own log channel up to the point where
streaming begins, and whether it registered a pseudo-terminal master.  On
`pty.Start` failure it sends the single formatted error line (with
`isStderr: true`) and returns; on success it registers the master and sends
the started line. -/
def runnerStart (svc : Service) (r : SpawnResult) : List Msg × Bool :=
  match r with
  | .fail err => ([Msg.log svc.name ("❌ Failed to start: " ++ err) true], false)
  | .ok => ([Msg.log svc.name "✅ Service started" false], true)

/-- The service name an event is addressed to. -/
def Msg.eventService : Msg → Option String
  | .log n _ _ => some n
  | .status n _ _ => some n
  | _ => none

/-- Whether an event is a `serviceStatusMsg` (the spec's `StatusChange`). -/
def Msg.isStatusEvent : Msg → Bool
  | .status _ _ _ => true
  | _ => false

/-- Go `unicode.IsSpace`, the separator predicate of `strings.Fields`. -/
def isGoSpace (c : Char) : Bool :=
  c == ' ' || c == '\t' || c == '\n' || c == '\x0b' || c == '\x0c' || c == '\r' ||
  c.toNat == 0x85 || c.toNat == 0xA0 || c.toNat == 0x1680 ||
  (0x2000 <= c.toNat && c.toNat <= 0x200A) ||
  c.toNat == 0x2028 || c.toNat == 0x2029 || c.toNat == 0x202F ||
  c.toNat == 0x205F || c.toNat == 0x3000

/-- Accumulator pass of `strings.Fields`: `acc` holds the reversed current
field. -/
def fieldsAux : List Char → List Char → List (List Char)
  | [], acc => if acc.isEmpty then [] else [acc.reverse]
  | c :: cs, acc =>
    if isGoSpace c then
      if acc.isEmpty then fieldsAux cs [] else acc.reverse :: fieldsAux cs []
    else fieldsAux cs (c :: acc)

/-- Go `strings.Fields(s)`: the maximal runs of non-whitespace characters. -/
def goFields (s : String) : List String :=
  (fieldsAux s.data []).map chStr

/-- The process-creation request `runServiceWithTUI` builds:
`exec.CommandContext(ctx, parts[0], parts[1:]...)` with
`cmd.Dir = svc.Path`, where `parts := strings.Fields(svc.Command)`.  The
program is executed directly (no shell is involved).  An all-whitespace
command makes `parts[0]` panic in Go; that is modelled as `none`. -/
structure SpawnCall where
  prog : String
  args : List String
  dir : String
deriving Repr, DecidableEq

/-- The spawn call derived from a service descriptor (see `SpawnCall`). -/
def spawnFor (svc : Service) : Option SpawnCall :=
  match goFields svc.command with
  | [] => none
  | p :: rest => some { prog := p, args := rest, dir := svc.path }

/-- The characters of a string with the whitespace removed: what survives
tokenization, in order. -/
def nonSpaceChars (s : String) : List Char :=
  s.data.filter (fun c => !isGoSpace c)

/-- Concrete fixture: an "api" service as configured by a runtime.toml. -/
def svcApi : Service :=
  { name := "api", path := "/srv/api", command := "npm run dev", color := "22" }

/-- Concrete fixture: a sibling "web" service. -/
def svcWeb : Service :=
  { name := "web", path := "/srv/web", command := "npm start", color := "23" }

/-- Concrete fixture: the viewports `runDev` creates for the two services
(`viewport.New(100, 25)` then `SetContent("Starting <name>...")`). -/
def initViewports : String → Option Viewport :=
  fun n =>
    if n = "api" then some ((Viewport.new 100 25).setContent "Starting api...")
    else if n = "web" then some ((Viewport.new 100 25).setContent "Starting web...")
    else none

/-- Concrete fixture: the initial model of a run with services api and web,
both pseudo-terminals registered. -/
def m0 : Model :=
  { services := [svcApi, svcWeb], activeTab := 0, viewports := initViewports,
    ptyMasters := fun n => n == "api" || n == "web", ready := false,
    width := 0, height := 0, now := "12:00:00" }

/-- Concrete fixture: `m0` after the first `WindowSizeMsg` (10 by 3), which
makes every viewport 6 wide and 2 high. -/
def m1 : Model := (update m0 (Msg.resize 10 3)).1

/-- Concrete fixture: one stdout log line for the api service. -/
def logApi (m : Model) (l : String) : Model := (update m (Msg.log "api" l false)).1

/-- Concrete fixture: `m1` after log lines L1, L2, L3 for api. -/
def m4 : Model := logApi (logApi (logApi m1 "L1") "L2") "L3"

/-- Concrete fixture: `m4` after one more log line L4 for api. -/
def m5 : Model := logApi m4 "L4"

example : splitNl "".data = [[]] := by decide
example : splitNl "a\nb".data = [['a'], ['b']] := by decide
example : (Viewport.new 100 25).setContent "Starting api..." =
    { width := 100, height := 25, yOffset := 0, lines := ["Starting api..."] } := by decide
example :
    ((Viewport.new 6 2).setContent "a\nb\nc").gotoBottom.visibleLines = ["b", "c"] := by
  decide
example : ((Viewport.new 6 2).setContent "a").view = "a\n" := by decide

/-! Basic lemmas about the map and viewport operations. -/

theorem mapInsert_same (f : String → Option Viewport) (k : String) (v : Viewport) :
    mapInsert f k v k = some v := by
  simp [mapInsert]

theorem mapInsert_other (f : String → Option Viewport) (k y : String) (v : Viewport)
    (h : y ≠ k) : mapInsert f k v y = f y := by
  simp [mapInsert, h]

theorem setYOffset_lines (vp : Viewport) (n : Int) : (vp.setYOffset n).lines = vp.lines := rfl

theorem gotoBottom_lines (vp : Viewport) : vp.gotoBottom.lines = vp.lines := rfl

theorem setContent_lines (vp : Viewport) (s : String) :
    (vp.setContent s).lines = (splitNl (replCRLF s.data)).map chStr := by
  simp only [Viewport.setContent]
  split <;> rfl

theorem setContent_empty_lines (vp : Viewport) : (vp.setContent "").lines = [""] := by
  rw [setContent_lines]
  rfl

/-- The `logMsg` branch of `model.Update` returns before the active-viewport
block, so a log event for service `x` leaves every other service's viewport
untouched. -/
theorem update_log_frame (m : Model) (x line : String) (b : Bool) (y : String)
    (h : y ≠ x) : (update m (Msg.log x line b)).1.viewports y = m.viewports y := by
  simp only [update]
  split
  · cases hx : m.viewports x <;> simp [mapInsert, h]
  · cases hx : m.viewports x <;> simp [mapInsert, h]

/-- The clear-screen sentinel resets exactly the targeted service's viewport
with `SetContent("")`. -/
theorem update_log_clear (m : Model) (x : String) (b : Bool) :
    (update m (Msg.log x clearSentinel b)).1.viewports x =
      (m.viewports x).map (fun vp => vp.setContent "") := by
  simp only [update]
  cases hx : m.viewports x <;> simp [mapInsert, hx]

/-- No message changes the service list. -/
theorem update_services (m : Model) (msg : Msg) :
    (update m msg).1.services = m.services := by
  cases msg <;> simp only [update, updateActiveViewport] <;> (repeat' split) <;> rfl

/-- Claim C1: a `Line` or `ClearScreen` event addressed to service X leaves
the viewport (content buffer and scroll state) of every service Y ≠ X
unchanged, and the `ClearScreen` event resets X's own buffer to the empty
content. -/
theorem logEvent_touches_only_its_service (m : Model) (x line : String) (b : Bool)
    (y : String) (h : y ≠ x) :
    (update m (Msg.log x line b)).1.viewports y = m.viewports y ∧
    (update m (Msg.log x clearSentinel b)).1.viewports y = m.viewports y ∧
    ((update m (Msg.log x clearSentinel b)).1.viewports x).map Viewport.lines =
      (m.viewports x).map (fun _ => [""]) := by
  refine ⟨update_log_frame m x line b y h, update_log_frame m x clearSentinel b y h, ?_⟩
  rw [update_log_clear]
  cases m.viewports x <;> simp [setContent_empty_lines]

/-- Witness for C1 at the concrete two-service model: a log line and a clear
event for api do not change web's viewport. -/
theorem logEvent_touches_only_its_service_witness :
    ("web" ≠ "api") ∧
    (update m0 (Msg.log "api" "hello" false)).1.viewports "web" = m0.viewports "web" ∧
    ((update m0 (Msg.log "api" clearSentinel false)).1.viewports "api").map Viewport.lines =
      (m0.viewports "api").map (fun _ => [""]) :=
  ⟨by decide,
   (logEvent_touches_only_its_service m0 "api" "hello" false "web" (by decide)).1,
   (logEvent_touches_only_its_service m0 "api" "hello" false "web" (by decide)).2.2⟩

/-! Tab-index invariant. -/

/-- The focused-tab invariant of the spec's RenderState. -/
def validTab (m : Model) : Prop :=
  0 ≤ m.activeTab ∧ m.activeTab < (m.services.length : Int)

/-- One update step keeps the focused-tab index valid when the service list
is non-empty. -/
theorem update_validTab (m : Model) (msg : Msg) (hne : m.services ≠ [])
    (h : validTab m) : validTab (update m msg).1 := by
  have hlen : 0 < (m.services.length : Int) := by
    have : m.services.length ≠ 0 := fun h0 => hne (List.eq_nil_of_length_eq_zero h0)
    omega
  obtain ⟨h0, h1⟩ := h
  cases msg with
  | key k =>
    simp only [update]
    split
    · exact ⟨h0, h1⟩
    · split
      · refine ⟨?_, ?_⟩ <;> simp only [updateActiveViewport] <;>
          simp only [goMin] <;> split <;> omega
      · split
        · refine ⟨?_, ?_⟩ <;> simp only [updateActiveViewport] <;>
            simp only [goMax] <;> split <;> omega
        · exact ⟨h0, h1⟩
  | resize w h => exact ⟨h0, h1⟩
  | log name line isStderr =>
    simp only [update]
    split
    · cases hx : m.viewports name <;> simp [hx] <;> exact ⟨h0, h1⟩
    · cases hx : m.viewports name <;> simp [hx] <;> exact ⟨h0, h1⟩
  | status name st err =>
    cases hx : m.viewports name <;>
      simp only [update, hx, updateActiveViewport] <;> exact ⟨h0, h1⟩

/-- A whole sequence of update steps keeps the service list unchanged. -/
theorem updateSeq_services (m : Model) (msgs : List Msg) :
    (updateSeq m msgs).services = m.services := by
  induction msgs generalizing m with
  | nil => rfl
  | cons msg msgs ih =>
    simp only [updateSeq, List.foldl_cons]
    rw [show (List.foldl (fun m msg => (update m msg).1) (update m msg).1 msgs) =
          updateSeq (update m msg).1 msgs from rfl, ih, update_services]

/-- Claim C2: for a non-empty service list the focused-tab index stays a
valid index through any sequence of update steps, next-tab at the last index
is a no-op, and previous-tab at index 0 is a no-op (clamped, no wraparound). -/
theorem activeTab_always_valid (m : Model) (msgs : List Msg) (hne : m.services ≠ [])
    (h0 : 0 ≤ m.activeTab) (h1 : m.activeTab < (m.services.length : Int)) :
    (0 ≤ (updateSeq m msgs).activeTab ∧
      (updateSeq m msgs).activeTab < (m.services.length : Int) ∧
      (updateSeq m msgs).services = m.services) ∧
    (m.activeTab = (m.services.length : Int) - 1 →
      (update m (Msg.key Key.shiftRight)).1.activeTab = m.activeTab) ∧
    (m.activeTab = 0 → (update m (Msg.key Key.shiftLeft)).1.activeTab = 0) := by
  refine ⟨?_, ?_, ?_⟩
  · have main : ∀ (msgs : List Msg) (m : Model), m.services ≠ [] → validTab m →
        validTab (updateSeq m msgs) := by
      intro msgs
      induction msgs with
      | nil => intro m _ h; exact h
      | cons msg msgs ih =>
        intro m hne h
        have hs := update_services m msg
        have := ih (update m msg).1 (by rw [hs]; exact hne) (update_validTab m msg hne h)
        simpa [updateSeq] using this
    have h := main msgs m hne ⟨h0, h1⟩
    exact ⟨h.1, by rw [← updateSeq_services m msgs]; exact h.2, updateSeq_services m msgs⟩
  · intro hlast
    have hstep : (update m (Msg.key Key.shiftRight)).1.activeTab =
        goMin (m.activeTab + 1) ((m.services.length : Int) - 1) := by
      simp [update, keyString, updateActiveViewport]
    rw [hstep, goMin]
    split <;> omega
  · intro hfirst
    have hstep : (update m (Msg.key Key.shiftLeft)).1.activeTab =
        goMax (m.activeTab - 1) 0 := by
      simp [update, keyString, updateActiveViewport]
    rw [hstep, goMax]
    split <;> omega

/-- Witness for C2 at the concrete two-service model: two next-tab presses
from index 0 of two services stay at the last valid index 1. -/
theorem activeTab_always_valid_witness :
    (updateSeq m0 [Msg.key Key.shiftRight, Msg.key Key.shiftRight]).activeTab = 1 ∧
    0 ≤ (updateSeq m0 [Msg.key Key.shiftRight, Msg.key Key.shiftRight]).activeTab ∧
    (updateSeq m0 [Msg.key Key.shiftRight, Msg.key Key.shiftRight]).activeTab <
      (m0.services.length : Int) :=
  ⟨by decide,
   (activeTab_always_valid m0 [Msg.key Key.shiftRight, Msg.key Key.shiftRight]
      (by decide) (by decide) (by decide)).1.1,
   (activeTab_always_valid m0 [Msg.key Key.shiftRight, Msg.key Key.shiftRight]
      (by decide) (by decide) (by decide)).1.2.1⟩

/-! The quit keys. -/

/-- Claim C9: the plain character q, exactly like ctrl+c, cancels the shared
context and quits, leaving the model untouched and writing nothing to any
child pseudo-terminal, even when a focused service with a registered
pseudo-terminal exists. -/
theorem plain_q_always_quits (m : Model) :
    update m (Msg.key (Key.runes "q")) = (m, { quit := true, writes := [] }) ∧
    update m (Msg.key Key.ctrlC) = (m, { quit := true, writes := [] }) := by
  constructor <;> simp [update, keyString]

/-! The bounded per-service log channel. -/

/-- A full queue never grows: the non-blocking send drops the new event. -/
theorem trySend_full (q : List Msg) (e : Msg) (h : q.length = chanCapacity) :
    trySend q e = q := by
  simp [trySend, h]

theorem trySend_length_le (q : List Msg) (e : Msg) (h : q.length ≤ chanCapacity) :
    (trySend q e).length ≤ chanCapacity := by
  by_cases hlt : q.length < chanCapacity <;> simp [trySend, hlt] <;> omega

/-- Queue length after a burst, starting from any in-capacity queue: the
non-blocking sends fill it up to capacity and then drop. -/
theorem streamPty_length (name : String) (outputLines : List String) :
    ∀ q : List Msg, q.length ≤ chanCapacity →
      (streamPtyToChannel name outputLines q).length =
        min chanCapacity (q.length + outputLines.length) := by
  induction outputLines with
  | nil => intro q hq; simp [streamPtyToChannel]; omega
  | cons l ls ih =>
    intro q hq
    have step : streamPtyToChannel name (l :: ls) q =
        streamPtyToChannel name ls (trySend q (relayEvent name l)) := rfl
    rw [step]
    by_cases hlt : q.length < chanCapacity
    · have hlen : (trySend q (relayEvent name l)).length = q.length + 1 := by
        simp [trySend, hlt]
      rw [ih _ (by omega), hlen]
      simp only [List.length_cons]
      omega
    · have heq : q.length = chanCapacity := by omega
      rw [trySend_full q _ heq, ih q hq, heq]
      simp only [List.length_cons]
      omega

/-- Claim C3: emission into the 100-capacity per-service channel is
non-blocking (`trySend` is total and drops on a full queue), and after any
burst of produced lines at most 100 events remain deliverable; a burst of
more than 100 lines into an empty queue leaves exactly 100. -/
theorem relay_enqueue_nonblocking (name : String) (outputLines : List String)
    (q : List Msg) (e : Msg) (hq : q.length ≤ chanCapacity) :
    (q.length = chanCapacity → trySend q e = q) ∧
    (streamPtyToChannel name outputLines q).length ≤ chanCapacity ∧
    (q = [] → chanCapacity < outputLines.length →
      (streamPtyToChannel name outputLines []).length = chanCapacity) := by
  refine ⟨fun h => trySend_full q e h, ?_, ?_⟩
  · rw [streamPty_length name outputLines q hq]
    omega
  · intro _ hburst
    rw [streamPty_length name outputLines [] (by simp)]
    simp
    omega

/-- Witness for C3: a burst of 150 lines into an empty queue leaves exactly
100 deliverable events. -/
theorem relay_enqueue_nonblocking_witness :
    (streamPtyToChannel "api" (List.replicate 150 "log line") []).length = chanCapacity :=
  (relay_enqueue_nonblocking "api" (List.replicate 150 "log line") []
      (Msg.log "api" "x" false) (by decide)).2.2 rfl (by simp [chanCapacity])

/-- Concrete fixture: a full queue of 100 distinct log events. -/
def fullQueue : List Msg :=
  (List.range chanCapacity).map (fun i => Msg.log "api" (toString i) false)

/-- Concrete fixture: the event produced after the queue is already full. -/
def newestEvent : Msg := Msg.log "api" "newest" false

/-- Counterexample to C8 as stated: sending into a full queue keeps the
oldest event and drops the newest, not the other way round. -/
theorem drop_oldest_counterexample :
    trySend fullQueue newestEvent = fullQueue ∧
    Msg.log "api" "0" false ∈ trySend fullQueue newestEvent ∧
    newestEvent ∉ trySend fullQueue newestEvent := by
  refine ⟨?_, ?_, ?_⟩ <;> decide

/-- Claim C8 (amended): the bounded queue follows a drop-newest-on-full
policy: events sent into a full queue are dropped and the queue — including
its oldest event — is left exactly as it was, for a single send and for any
further burst. -/
theorem full_queue_drops_newest (name : String) (outputLines : List String)
    (q : List Msg) (e : Msg) (h : q.length = chanCapacity) :
    trySend q e = q ∧ streamPtyToChannel name outputLines q = q := by
  refine ⟨trySend_full q e h, ?_⟩
  induction outputLines with
  | nil => rfl
  | cons l ls ih =>
    have step : streamPtyToChannel name (l :: ls) q =
        streamPtyToChannel name ls (trySend q (relayEvent name l)) := rfl
    rw [step, trySend_full q _ h, ih]

/-- Witness for the amended C8 at the concrete full queue. -/
theorem full_queue_drops_newest_witness :
    streamPtyToChannel "api" ["late1", "late2"] fullQueue = fullQueue :=
  (full_queue_drops_newest "api" ["late1", "late2"] fullQueue newestEvent (by decide)).2

/-! Spawn failure handling. -/

/-- Counterexample to C4 as stated: on spawn failure the runner emits no
`StatusChange` (`serviceStatusMsg`) event at all — the single emitted event
is a `Line` event carrying the formatted error text with the error-stream
flag set. -/
theorem spawn_failure_no_status_event :
    (runnerStart svcApi (SpawnResult.fail "fork/exec npm: no such file or directory")).1.all
      (fun e => !e.isStatusEvent) = true ∧
    (runnerStart svcApi (SpawnResult.fail "fork/exec npm: no such file or directory")).1 =
      [Msg.log "api" "❌ Failed to start: fork/exec npm: no such file or directory" true] ∧
    (runnerStart svcApi (SpawnResult.fail "fork/exec npm: no such file or directory")).2 =
      false := by
  refine ⟨?_, ?_, ?_⟩ <;> decide

/-- Claim C4 (amended): when `pty.Start` fails, the runner emits exactly one
Line event — its own service name, the text "❌ Failed to start: <err>",
`isStderr: true` — registers no pseudo-terminal and terminates without
retry; the failure is local: processing that event leaves every other
service's viewport unchanged. -/
theorem spawn_failure_is_local (svc : Service) (err : String) (m : Model) (y : String)
    (hy : y ≠ svc.name) :
    runnerStart svc (SpawnResult.fail err) =
      ([Msg.log svc.name ("❌ Failed to start: " ++ err) true], false) ∧
    (update m (Msg.log svc.name ("❌ Failed to start: " ++ err) true)).1.viewports y =
      m.viewports y :=
  ⟨rfl, update_log_frame m svc.name _ true y hy⟩

/-- Witness for the amended C4 at the concrete model: web's viewport is not
touched by api's spawn-failure event. -/
theorem spawn_failure_is_local_witness :
    ("web" ≠ "api") ∧
    (update m0 (Msg.log "api" "❌ Failed to start: exec failed" true)).1.viewports "web" =
      m0.viewports "web" :=
  ⟨by decide,
   (spawn_failure_is_local svcApi "exec failed" m0 "web" (by decide)).2⟩

/-! Clear-screen detection in the relay. -/

/-- Claim C6: the relay emits the clear-screen event — whose line is the
fixed sentinel, never the raw escape bytes — exactly when the scanned line
contains one of the patterns ESC[2J, ESC[H ESC[2J, ESC[3J; every other line
is emitted as a Line event with its text unchanged and isStderr = false;
and processing a matched line's event empties the service's buffer instead
of appending anything. -/
theorem relay_clear_screen_detection (m : Model) (name line : String) :
    (clearRegexMatches line = true ↔
      (containsSeq "\x1b[2J".data line.data = true ∨
       containsSeq "\x1b[H\x1b[2J".data line.data = true ∨
       containsSeq "\x1b[3J".data line.data = true)) ∧
    (clearRegexMatches line = true →
      relayEvent name line = Msg.log name clearSentinel false) ∧
    (clearRegexMatches line = false →
      relayEvent name line = Msg.log name line false) ∧
    (clearRegexMatches line = true →
      ((update m (relayEvent name line)).1.viewports name).map Viewport.lines =
        (m.viewports name).map (fun _ => [""])) := by
  refine ⟨?_, fun h => ?_, fun h => ?_, fun h => ?_⟩
  · simp [clearRegexMatches]
    tauto
  · simp [relayEvent, h]
  · simp [relayEvent, h]
  · rw [show relayEvent name line = Msg.log name clearSentinel false by simp [relayEvent, h]]
    rw [update_log_clear]
    cases m.viewports name <;> simp [setContent_empty_lines]

/-- Witness for C6: a line containing ESC[2J plus other text becomes the
sentinel clear event; its raw bytes are not forwarded. -/
theorem relay_clear_screen_detection_witness :
    clearRegexMatches "\x1b[2Jrest" = true ∧
    relayEvent "api" "\x1b[2Jrest" = Msg.log "api" clearSentinel false :=
  ⟨by decide,
   (relay_clear_screen_detection m0 "api" "\x1b[2Jrest").2.1 (by decide)⟩

/-! Keyboard routing. -/

/-- A successful guarded index implies a non-empty list. -/
theorem goIndex_pos (l : List Service) (i : Int) (svc : Service)
    (h : goIndex l i = some svc) : 0 < l.length := by
  unfold goIndex at h
  split at h
  · next hcond => exact Nat.lt_of_le_of_lt (Nat.zero_le _) hcond.2
  · exact absurd h (by simp)

/-- Claim C7: keys with a recognized control meaning (ctrl+c, q,
shift+right, shift+left) are handled locally with no pseudo-terminal write;
with a non-empty service list every other key is translated by
`keyMsgToBytes` to the literal terminal byte sequence — Enter to carriage
return, arrows to ESC [ A/B/C/D, control chords to their control byte,
runes to their own bytes — and written to the focused service's registered
pseudo-terminal; with an empty service list nothing is ever written. -/
theorem keyboard_routing (m : Model) (k : Key) (svc : Service) (s : String) :
    ((keyString k = "ctrl+c" ∨ keyString k = "q") →
      (update m (Msg.key k)).2 = { quit := true, writes := [] }) ∧
    ((keyString k = "shift+right" ∨ keyString k = "shift+left") →
      (update m (Msg.key k)).2 = { quit := false, writes := [] }) ∧
    (m.services = [] → (update m (Msg.key k)).2.writes = []) ∧
    (keyString k ≠ "ctrl+c" → keyString k ≠ "q" → keyString k ≠ "shift+right" →
      keyString k ≠ "shift+left" →
      goIndex m.services m.activeTab = some svc →
      m.ptyMasters svc.name = true →
      keyMsgToBytes k = some s →
      (update m (Msg.key k)).2 = { quit := false, writes := [PtyWrite.mk svc.name s] }) ∧
    (keyMsgToBytes Key.enter = some "\r" ∧ keyMsgToBytes Key.up = some "\x1b[A" ∧
      keyMsgToBytes Key.down = some "\x1b[B" ∧ keyMsgToBytes Key.right = some "\x1b[C" ∧
      keyMsgToBytes Key.left = some "\x1b[D" ∧ keyMsgToBytes Key.ctrlA = some "\x01" ∧
      keyMsgToBytes Key.ctrlZ = some "\x1a" ∧ keyMsgToBytes (Key.runes s) = some s) := by
  refine ⟨fun h => ?_, fun h => ?_, fun hempty => ?_, ?_,
    rfl, rfl, rfl, rfl, rfl, rfl, rfl, rfl⟩
  · rcases h with h | h <;> simp [update, h]
  · rcases h with h | h <;> simp [update, h]
  · simp only [update]
    split
    · rfl
    · split
      · rfl
      · split
        · rfl
        · simp [hempty]
  · intro h1 h2 h3 h4 hsvc hpty hbytes
    have hpos : 0 < m.services.length :=
      goIndex_pos m.services m.activeTab svc hsvc
    simp [update, h1, h2, h3, h4, hsvc, hpty, hbytes, hpos]

/-- Witness for C7: at the concrete model with api focused and its
pseudo-terminal registered, pressing Enter writes a carriage return to api. -/
theorem keyboard_routing_witness :
    (update m0 (Msg.key Key.enter)).2 =
      { quit := false, writes := [PtyWrite.mk "api" "\r"] } :=
  (keyboard_routing m0 Key.enter svcApi "\r").2.2.2.1
    (by decide) (by decide) (by decide) (by decide) (by decide) (by decide) rfl

/-! Command tokenization. -/

/-- Concatenating the fields recovers exactly the non-whitespace characters
of the input, in order: tokenization neither reorders, drops, nor rewrites
any non-whitespace byte (quotes, pipes, dollar signs included). -/
theorem fieldsAux_join : ∀ (cs acc : List Char),
    (fieldsAux cs acc).flatten = acc.reverse ++ cs.filter (fun c => !isGoSpace c) := by
  intro cs
  induction cs with
  | nil =>
    intro acc
    by_cases h : acc.isEmpty
    · simp [fieldsAux, h, List.isEmpty_iff.mp h]
    · simp [fieldsAux, h]
  | cons c cs ih =>
    intro acc
    by_cases hsp : isGoSpace c
    · by_cases hacc : acc.isEmpty
      · simp [fieldsAux, hsp, hacc, ih, List.isEmpty_iff.mp hacc, List.filter_cons]
      · simp [fieldsAux, hsp, hacc, ih, List.filter_cons]
    · simp [fieldsAux, hsp, ih, List.filter_cons]

/-- Every produced field is a non-empty run of non-whitespace characters. -/
theorem fieldsAux_mem : ∀ (cs acc : List Char),
    (∀ c ∈ acc, isGoSpace c = false) →
    ∀ f ∈ fieldsAux cs acc, f ≠ [] ∧ ∀ c ∈ f, isGoSpace c = false := by
  intro cs
  induction cs with
  | nil =>
    intro acc hacc f hf
    by_cases h : acc.isEmpty
    · simp [fieldsAux, h] at hf
    · have hb : acc.isEmpty = false := by simpa using h
      simp [fieldsAux, hb] at hf
      subst hf
      have hne : acc ≠ [] := by
        intro h0
        rw [h0] at hb
        simp at hb
      exact ⟨by simpa using hne, fun c hc => hacc c (List.mem_reverse.mp hc)⟩
  | cons c cs ih =>
    intro acc hacc f hf
    by_cases hsp : isGoSpace c
    · by_cases hempty : acc.isEmpty
      · simp [fieldsAux, hsp, hempty] at hf
        exact ih [] (by simp) f hf
      · have hb : acc.isEmpty = false := by simpa using hempty
        simp [fieldsAux, hsp, hb] at hf
        cases hf with
        | inl h1 =>
          subst h1
          have hne : acc ≠ [] := by
            intro h0
            rw [h0] at hb
            simp at hb
          exact ⟨by simpa using hne, fun d hd => hacc d (List.mem_reverse.mp hd)⟩
        | inr h2 => exact ih [] (by simp) f h2
    · have hb : isGoSpace c = false := by simpa using hsp
      simp only [fieldsAux, hb, Bool.false_eq_true, if_false] at hf
      refine ih (c :: acc) ?_ f hf
      intro d hd
      rcases List.mem_cons.mp hd with rfl | hd
      · exact hb
      · exact hacc d hd

/-- Claim C10: the service command is tokenized by whitespace splitting —
every field is a non-empty whitespace-free run, the concatenated fields are
exactly the command's non-whitespace characters in order (so quotes, pipes
and dollar signs survive as literal argument text) — and the spawn executes
the first field directly as the program with the remaining fields as its
arguments in the service's directory, with no shell involved. -/
theorem command_tokenized_without_shell (cmd : String) (svc : Service) (p : String)
    (args : List String) :
    ((goFields cmd).all
      (fun f => !f.data.isEmpty && f.data.all (fun c => !isGoSpace c)) = true) ∧
    ((goFields cmd).map String.data).flatten = nonSpaceChars cmd ∧
    (goFields svc.command = p :: args →
      spawnFor svc = some { prog := p, args := args, dir := svc.path }) ∧
    (goFields svc.command = [] → spawnFor svc = none) := by
  refine ⟨?_, ?_, fun h => ?_, fun h => ?_⟩
  · rw [List.all_eq_true]
    intro f hf
    obtain ⟨cs, hcs, rfl⟩ := List.mem_map.mp hf
    obtain ⟨hne, hns⟩ := fieldsAux_mem cmd.data [] (by simp) cs hcs
    have hdata : (chStr cs).data = cs := rfl
    rw [Bool.and_eq_true, hdata]
    constructor
    · simpa [List.isEmpty_iff] using hne
    · rw [List.all_eq_true]
      intro c hc
      simp [hns c hc]
  · have hid : ((fieldsAux cmd.data []).map chStr).map String.data =
        fieldsAux cmd.data [] := by
      rw [List.map_map]
      exact List.map_id'' (fun cs => rfl) _
    rw [goFields, hid, fieldsAux_join cmd.data []]
    rfl
  · simp [spawnFor, h]
  · simp [spawnFor, h]

/-- Witness for C10: shell metacharacters in a command are plain argument
text after tokenization. -/
theorem command_tokenized_without_shell_witness :
    goFields "sh -c \"echo a | grep b\"" = ["sh", "-c", "\"echo", "a", "|", "grep", "b\""] ∧
    ((goFields "sh -c \"echo a | grep b\"").map String.data).flatten =
      nonSpaceChars "sh -c \"echo a | grep b\"" :=
  ⟨by decide,
   (command_tokenized_without_shell "sh -c \"echo a | grep b\"" svcApi "sh" []).2.1⟩

/-! Line-splitting lemmas for the viewport content analysis. -/

theorem splitNl_ne_nil (cs : List Char) : splitNl cs ≠ [] := by
  induction cs with
  | nil => simp [splitNl]
  | cons c rest ih =>
    simp only [splitNl]
    split
    · simp
    · cases h : splitNl rest with
      | nil => simp
      | cons g gs => simp

theorem splitNl_no_newline (cs : List Char) (h : '\n' ∉ cs) : splitNl cs = [cs] := by
  induction cs with
  | nil => rfl
  | cons c rest ih =>
    have hc : c ≠ '\n' := fun e => h (e ▸ List.mem_cons_self c rest)
    have hr : '\n' ∉ rest := fun hm => h (List.mem_cons_of_mem c hm)
    simp only [splitNl, if_neg hc]
    rw [ih hr]

theorem splitNl_append_newline (cs ds : List Char) :
    splitNl (cs ++ '\n' :: ds) = splitNl cs ++ splitNl ds := by
  induction cs with
  | nil => simp [splitNl]
  | cons c rest ih =>
    by_cases hc : c = '\n'
    · subst hc
      show splitNl ('\n' :: (rest ++ '\n' :: ds)) = splitNl ('\n' :: rest) ++ splitNl ds
      simp [splitNl, ih]
    · cases h : splitNl rest with
      | nil => exact absurd h (splitNl_ne_nil rest)
      | cons g gs =>
        have h2 : splitNl (rest ++ '\n' :: ds) = g :: (gs ++ splitNl ds) := by
          rw [ih, h]
          rfl
        show splitNl (c :: (rest ++ '\n' :: ds)) = splitNl (c :: rest) ++ splitNl ds
        simp only [splitNl, if_neg hc, h, h2]
        rfl

theorem splitNl_append_pad (cs : List Char) (k : Nat) :
    splitNl (cs ++ List.replicate k '\n') = splitNl cs ++ List.replicate k [] := by
  induction k generalizing cs with
  | zero => simp
  | succ k ih =>
    have hsplit : cs ++ List.replicate (k + 1) '\n' =
        (cs ++ ['\n']) ++ List.replicate k '\n' := by
      simp [List.replicate_succ]
    rw [hsplit, ih, show (cs ++ ['\n']) = cs ++ '\n' :: [] from rfl,
        splitNl_append_newline]
    simp [splitNl, List.replicate_succ]

theorem replCRLF_no_cr (cs : List Char) (h : '\r' ∉ cs) : replCRLF cs = cs := by
  induction cs with
  | nil => rfl
  | cons c rest ih =>
    have hc : c ≠ '\r' := fun e => h (e ▸ List.mem_cons_self c rest)
    have hr : '\r' ∉ rest := fun hm => h (List.mem_cons_of_mem c hm)
    rw [replCRLF.eq_def]
    split
    · next heq =>
      injection heq with h1 _
      exact absurd h1 hc
    · next heq =>
      injection heq with h1 h2
      subst h1
      subst h2
      rw [ih hr]
    · next heq => exact absurd heq (by simp)

theorem joinNl_data_cons (l : String) (rest : List String) (h : rest ≠ []) :
    (joinNl (l :: rest)).data = l.data ++ '\n' :: (joinNl rest).data := by
  cases rest with
  | nil => exact absurd rfl h
  | cons r rs =>
    show (l ++ "\n" ++ joinNl (r :: rs)).data = _
    rw [String.data_append, String.data_append, List.append_assoc]
    rfl

theorem splitNl_joinNl (vis : List String) (hne : vis ≠ [])
    (h : ∀ l ∈ vis, '\n' ∉ l.data) :
    splitNl (joinNl vis).data = vis.map String.data := by
  induction vis with
  | nil => exact absurd rfl hne
  | cons l rest ih =>
    cases rest with
    | nil =>
      show splitNl (joinNl [l]).data = [l.data]
      rw [show joinNl [l] = l from rfl, splitNl_no_newline l.data (h l (by simp))]
    | cons r rs =>
      rw [joinNl_data_cons l (r :: rs) (by simp), splitNl_append_newline,
          splitNl_no_newline l.data (h l (by simp)),
          ih (by simp) (fun x hx => h x (List.mem_cons_of_mem l hx))]
      rfl

theorem joinNl_mem_chars (ls : List String) (c : Char) (hc : c ∈ (joinNl ls).data) :
    c = '\n' ∨ ∃ s ∈ ls, c ∈ s.data := by
  induction ls with
  | nil => simp [joinNl] at hc
  | cons l rest ih =>
    cases rest with
    | nil =>
      right
      exact ⟨l, by simp, hc⟩
    | cons r rs =>
      rw [joinNl_data_cons l (r :: rs) (by simp)] at hc
      rcases List.mem_append.mp hc with h1 | h2
      · exact Or.inr ⟨l, by simp, h1⟩
      · rcases List.mem_cons.mp h2 with rfl | h3
        · exact Or.inl rfl
        · rcases ih h3 with h4 | ⟨s, hs, hcs⟩
          · exact Or.inl h4
          · exact Or.inr ⟨s, List.mem_cons_of_mem l hs, hcs⟩

/-! Viewport content analysis. -/

theorem chStr_data (s : String) : chStr s.data = s := rfl

/-- Number of padding newlines `View` appends below the visible lines. -/
def padCount (vp : Viewport) : Nat :=
  if (vp.visibleLines.length : Int) < vp.height then
    (goMax 0 (vp.height - (vp.visibleLines.length : Int))).toNat
  else 0

theorem view_data (vp : Viewport) :
    vp.view.data = (joinNl vp.visibleLines).data ++ List.replicate (padCount vp) '\n' := by
  by_cases h : (vp.visibleLines.length : Int) < vp.height
  · simp only [Viewport.view, padCount, if_pos h, String.data_append]
    rfl
  · simp only [Viewport.view, padCount, if_neg h, String.data_append]
    rfl

theorem visibleLines_subset (vp : Viewport) : ∀ l ∈ vp.visibleLines, l ∈ vp.lines := by
  intro l hl
  simp only [Viewport.visibleLines] at hl
  split at hl
  · exact List.drop_subset _ _ (List.take_subset _ _ hl)
  · simp at hl

theorem view_no_cr (vp : Viewport)
    (h : ∀ l ∈ vp.lines, ∀ c ∈ l.data, c ≠ '\n' ∧ c ≠ '\r') :
    '\r' ∉ vp.view.data := by
  intro hmem
  rw [view_data] at hmem
  rcases List.mem_append.mp hmem with h1 | h2
  · rcases joinNl_mem_chars _ _ h1 with h3 | ⟨s, hs, hcs⟩
    · exact absurd h3 (by decide)
    · exact (h s (visibleLines_subset vp s hs) '\r' hcs).2 rfl
  · exact absurd (List.eq_of_mem_replicate h2) (by decide)

theorem setContent_height (vp : Viewport) (s : String) :
    (vp.setContent s).height = vp.height := by
  simp only [Viewport.setContent]
  split <;> rfl

theorem gotoBottom_scrolled (w : Viewport) :
    w.gotoBottom.yOffset =
      goMax 0 ((w.gotoBottom.lines.length : Int) - w.gotoBottom.height) := by
  show clamp w.maxYOffset 0 w.maxYOffset = goMax 0 ((w.lines.length : Int) - w.height)
  unfold Viewport.maxYOffset clamp goMin goMax
  split_ifs <;> omega

/-- Every non-final line the `logMsg` append rebuilds comes from the old
viewport's visible window or is a blank padding line. -/
theorem view_split_mem (vp : Viewport)
    (hbuf : ∀ l ∈ vp.lines, ∀ c ∈ l.data, c ≠ '\n' ∧ c ≠ '\r') :
    ∀ l ∈ (splitNl vp.view.data).map chStr, l ∈ vp.visibleLines ∨ l = "" := by
  have hnl : ∀ s ∈ vp.visibleLines, '\n' ∉ s.data :=
    fun s hs hm => (hbuf s (visibleLines_subset vp s hs) '\n' hm).1 rfl
  intro l hl
  rw [view_data vp, splitNl_append_pad] at hl
  obtain ⟨cs, hcs, rfl⟩ := List.mem_map.mp hl
  rcases List.mem_append.mp hcs with h1 | h2
  · by_cases hvis : vp.visibleLines = []
    · rw [hvis] at h1
      have hcs0 : cs = [] := by simpa [joinNl, splitNl] using h1
      exact Or.inr (by rw [hcs0]; rfl)
    · rw [splitNl_joinNl vp.visibleLines hvis hnl] at h1
      obtain ⟨s, hs, rfl⟩ := List.mem_map.mp h1
      exact Or.inl (by rw [chStr_data]; exact hs)
  · exact Or.inr (by rw [List.eq_of_mem_replicate h2]; rfl)

/-- Counterexample to C5 as stated: with the viewport two lines high, the
entry formatted for L1 is present in api's buffer after three appended
lines, and gone after the fourth — a previously appended line is not
preserved. -/
theorem line_append_loses_old_lines :
    formatLogLine m4 "api" "L1" false ∈
      ((m4.viewports "api").map Viewport.lines).getD [] ∧
    m5 = (update m4 (Msg.log "api" "L4" false)).1 ∧
    formatLogLine m4 "api" "L1" false ∉
      ((m5.viewports "api").map Viewport.lines).getD [] := by
  refine ⟨by decide, rfl, by decide⟩

/-- Claim C5 (amended): a Line event appends exactly one formatted entry —
the colored service tag, the stream glyph, then the raw text with its
escape sequences intact — as the new last line of that service's buffer and
scrolls the viewport to the bottom; but the buffer is rebuilt from the
viewport's currently visible window, so every retained line other than the
new entry is a previously visible line or a blank padding line: lines that
had already scrolled out of view are discarded, not preserved. -/
theorem line_event_appends_to_visible_window
    (m : Model) (x line : String) (b : Bool) (vp vp2 : Viewport)
    (hvp : m.viewports x = some vp)
    (hline : line ≠ clearSentinel)
    (h2 : (update m (Msg.log x line b)).1.viewports x = some vp2)
    (hfmt : ∀ c ∈ (formatLogLine m x line b).data, c ≠ '\n' ∧ c ≠ '\r')
    (hbuf : ∀ l ∈ vp.lines, ∀ c ∈ l.data, c ≠ '\n' ∧ c ≠ '\r') :
    vp2.lines.getLast? = some (formatLogLine m x line b) ∧
    (∀ l ∈ vp2.lines.dropLast, l ∈ vp.visibleLines ∨ l = "") ∧
    vp2.yOffset = goMax 0 ((vp2.lines.length : Int) - vp2.height) ∧
    vp2.height = vp.height := by
  have hvp2 : vp2 = (vp.setContent
      ((if vp.view ≠ "" then vp.view ++ "\n" else vp.view) ++
        formatLogLine m x line b)).gotoBottom := by
    simp only [update] at h2
    rw [if_neg hline] at h2
    simp only [hvp] at h2
    rw [mapInsert_same] at h2
    exact (Option.some.inj h2).symm
  subst hvp2
  have hfn : '\n' ∉ (formatLogLine m x line b).data := fun hm => (hfmt _ hm).1 rfl
  have hfr : '\r' ∉ (formatLogLine m x line b).data := fun hm => (hfmt _ hm).2 rfl
  by_cases hview : vp.view = ""
  · have hlines : ((vp.setContent
        ((if vp.view ≠ "" then vp.view ++ "\n" else vp.view) ++
          formatLogLine m x line b)).gotoBottom).lines = [formatLogLine m x line b] := by
      rw [gotoBottom_lines, setContent_lines, hview]
      rw [if_neg (by simp)]
      rw [show (("" : String) ++ formatLogLine m x line b).data =
            (formatLogLine m x line b).data from rfl]
      rw [replCRLF_no_cr _ hfr, splitNl_no_newline _ hfn]
      rfl
    refine ⟨?_, ?_, gotoBottom_scrolled _, setContent_height vp _⟩
    · rw [hlines]
      rfl
    · rw [hlines]
      simp
  · have hlines : ((vp.setContent
        ((if vp.view ≠ "" then vp.view ++ "\n" else vp.view) ++
          formatLogLine m x line b)).gotoBottom).lines =
        (splitNl vp.view.data).map chStr ++ [formatLogLine m x line b] := by
      rw [gotoBottom_lines, setContent_lines, if_pos hview]
      have hdata : ((vp.view ++ "\n") ++ formatLogLine m x line b).data =
          vp.view.data ++ '\n' :: (formatLogLine m x line b).data := by
        rw [String.data_append, String.data_append, List.append_assoc]
        rfl
      rw [hdata, replCRLF_no_cr, splitNl_append_newline,
          splitNl_no_newline _ hfn, List.map_append]
      · rfl
      · intro hm
        rcases List.mem_append.mp hm with hm1 | hm2
        · exact view_no_cr vp hbuf hm1
        · rcases List.mem_cons.mp hm2 with he | hm3
          · exact absurd he (by decide)
          · exact hfr hm3
    refine ⟨?_, ?_, gotoBottom_scrolled _, setContent_height vp _⟩
    · rw [hlines]
      simp
    · rw [hlines, List.dropLast_concat]
      exact view_split_mem vp hbuf

/-- Witness for the amended C5 at the concrete model: appending L4 to api at
height 2 puts the formatted L4 entry last, scrolled to the bottom. -/
theorem line_event_appends_witness :
    ((m5.viewports "api").getD (Viewport.new 0 0)).lines.getLast? =
      some (formatLogLine m4 "api" "L4" false) ∧
    ((m5.viewports "api").getD (Viewport.new 0 0)).yOffset = 1 := by
  have h := line_event_appends_to_visible_window m4 "api" "L4" false
      ((m4.viewports "api").getD (Viewport.new 0 0))
      ((m5.viewports "api").getD (Viewport.new 0 0))
      (by decide) (by decide) (by decide) (by decide) (by decide)
  exact ⟨h.1, by decide⟩

end Runtime
